import Mathlib

/-!
# Study-Planner client core: shallow embedding

Embedding of the persisted-state store, the storage operations
(`src/lib/storage.ts`), the page-level handlers (`src/app/onboarding/page.tsx`,
`src/app/checkin/page.tsx`, `src/app/dashboard/page.tsx`) and the progress
aggregator, translated from the TypeScript source.  `localStorage` is modelled
as a record of optional typed values plus a per-date map for the compound
completed-task keys; remote calls are modelled by an `Option` parameter
(`none` = the call failed / threw, `some r` = it returned `r`).
Hour quantities are rationals; dates are the ISO `YYYY-MM-DD` strings the
code stores, on which JavaScript `Date` comparison agrees with lexicographic
string comparison.
-/

/-- `Priority` from `src/lib/types.ts`. -/
inductive Priority
  | high
  | medium
  | low
deriving DecidableEq, Repr

/-- `Difficulty` from `src/lib/types.ts`. -/
inductive Difficulty
  | easy
  | medium
  | hard
deriving DecidableEq, Repr

/-- `TaskType` from `src/lib/types.ts`. -/
inductive TaskType
  | learn
  | revise
  | practice
deriving DecidableEq, Repr

/-- `Mood` from `src/lib/types.ts`. -/
inductive Mood
  | energized
  | okay
  | tired
  | burnedOut
deriving DecidableEq, Repr

/-- `FocusLevel` from `src/lib/types.ts`. -/
inductive FocusLevel
  | high
  | medium
  | low
deriving DecidableEq, Repr

/-- `BurnoutRisk` from `src/lib/types.ts`. -/
inductive BurnoutRisk
  | low
  | medium
  | high
  | critical
deriving DecidableEq, Repr

/-- `Subject` from `src/lib/types.ts`. -/
structure Subject where
  name : String
  priority : Priority
  difficulty : Difficulty
  is_weak : Bool
  exam_date : String
  hours_needed : ℚ
deriving DecidableEq, Repr

/-- `DailyTask` from `src/lib/types.ts`. -/
structure DailyTask where
  subject : String
  topic : String
  duration_hours : ℚ
  task_type : TaskType
  priority : Priority
  notes : String
deriving DecidableEq, Repr

/-- `StudyPlan` (one day) from `src/lib/types.ts`. -/
structure StudyPlan where
  date : String
  tasks : List DailyTask
  total_hours : ℚ
  rest_recommended : Bool
deriving DecidableEq, Repr

/-- `WeeklyPlan` from `src/lib/types.ts`. -/
structure WeeklyPlan where
  week_number : ℤ
  days : List StudyPlan
  burnout_risk : BurnoutRisk
deriving DecidableEq, Repr

/-- `MoodEntry` from `src/lib/types.ts`. -/
structure MoodEntry where
  date : String
  mood : Mood
  mood_score : ℕ
  planned_hours : ℚ
  actual_hours : ℚ
  focus_level : FocusLevel
deriving DecidableEq, Repr

/-- `BurnoutAssessment` from `src/lib/types.ts`. -/
structure BurnoutAssessment where
  risk_level : BurnoutRisk
  risk_score : ℕ
  signals : List String
  recommendations : List String
  should_adjust_plan : Bool
deriving DecidableEq, Repr

/-- `AdjustedPlan` from `src/lib/types.ts`. -/
structure AdjustedPlan where
  original_hours : ℚ
  new_hours : ℚ
  removed_tasks : List String
  modified_tasks : List DailyTask
  rest_days_added : ℤ
  rationale : String
deriving DecidableEq, Repr

/-- The `localStorage` contents seen through the typed accessors of
`src/lib/storage.ts`: one optional value per fixed key of `KEYS`, plus one
optional value per date for the compound keys
`study_planner_completed_tasks_(date)`.  `completedTasksBase` is the value
(if any) stored under the bare key `study_planner_completed_tasks`, which
appears in `KEYS` but is only ever touched by `clearAllData`. -/
structure Store where
  subjects : Option (List Subject)
  weeklyPlan : Option WeeklyPlan
  moodHistory : Option (List MoodEntry)
  availableHours : Option ℚ
  fixedCommitments : Option (List (String × List (List ℚ)))
  lastAssessment : Option BurnoutAssessment
  completedTasksBase : Option (List String)
  onboardingComplete : Option Bool
  completedTasks : String → Option (List String)

/-- The store of a fresh browser profile: nothing persisted yet. -/
def Store.empty : Store where
  subjects := none
  weeklyPlan := none
  moodHistory := none
  availableHours := none
  fixedCommitments := none
  lastAssessment := none
  completedTasksBase := none
  onboardingComplete := none
  completedTasks := fun _ => none

/-- Lexicographic `≤` on character lists, structurally recursive so that it
evaluates by kernel reduction. -/
def charsLe : List Char → List Char → Bool
  | [], _ => true
  | _ :: _, [] => false
  | a :: as, b :: bs => if a < b then true else if b < a then false else charsLe as bs

/-- Date comparison.  The dashboard compares `new Date(x) >= new Date(y)`;
for the equal-format ISO `YYYY-MM-DD` strings the app stores, `Date` order
coincides with lexicographic order of the strings. -/
def dateLe (a b : String) : Bool := charsLe a.data b.data

/-! ## Storage operations (`src/lib/storage.ts`)

Each TypeScript accessor `xStorage.op` becomes a pure function on `Store`.
A JavaScript `x || default` read returns the default both when the key is
absent and when the stored value is falsy; the only falsy value of the
relevant types that the accessors can meet is the number `0`
(`[]`, objects and `true` are truthy, and a stored `false` coincides with
the default `false`). -/

/-- `moodStorage.get`: `getItem(...) || []`. -/
def moodGet (s : Store) : List MoodEntry := s.moodHistory.getD []

/-- `moodStorage.set`. -/
def moodSet (s : Store) (entries : List MoodEntry) : Store :=
  { s with moodHistory := some entries }

/-- `moodStorage.add`: push the entry, then drop the first element when the
list has grown beyond 7 (`entries.shift()`). -/
def moodAdd (s : Store) (e : MoodEntry) : Store :=
  let entries := moodGet s ++ [e]
  let entries := if entries.length > 7 then entries.tail else entries
  moodSet s entries

/-- `hoursStorage.get`: `getItem(...) || 5` — the stored number `0` is falsy,
so it also yields the default `5`. -/
def hoursGet (s : Store) : ℚ :=
  match s.availableHours with
  | none => 5
  | some v => if v = 0 then 5 else v

/-- `hoursStorage.set`. -/
def hoursSet (s : Store) (hours : ℚ) : Store :=
  { s with availableHours := some hours }

/-- `completedTasksStorage.get date`: `getItem(prefix_date) || []`. -/
def ctGet (s : Store) (date : String) : List String :=
  (s.completedTasks date).getD []

/-- `completedTasksStorage.set date tasks`. -/
def ctSet (s : Store) (date : String) (tasks : List String) : Store :=
  { s with completedTasks := fun k => if k = date then some tasks else s.completedTasks k }

/-- `completedTasksStorage.add`: append only when absent (guarded by
`!tasks.includes(taskId)`); when present nothing is written. -/
def ctAdd (s : Store) (date taskId : String) : Store :=
  let tasks := ctGet s date
  if taskId ∈ tasks then s else ctSet s date (tasks ++ [taskId])

/-- `completedTasksStorage.remove`: filter the id out and write back
unconditionally. -/
def ctRemove (s : Store) (date taskId : String) : Store :=
  ctSet s date ((ctGet s date).filter (fun id => id ≠ taskId))

/-- `onboardingStorage.isComplete`: `getItem(...) || false`. -/
def isOnboarded (s : Store) : Bool := s.onboardingComplete.getD false

/-- `onboardingStorage.setComplete`. -/
def onboardingSetComplete (s : Store) : Store :=
  { s with onboardingComplete := some true }

/-- `clearAllData`: `Object.values(KEYS).forEach(removeItem)` — removes the
eight fixed keys of `KEYS`, including the bare `study_planner_completed_tasks`
key, but touches none of the per-date compound keys
`study_planner_completed_tasks_(date)`. -/
def clearAllData (s : Store) : Store :=
  { s with
      subjects := none
      weeklyPlan := none
      moodHistory := none
      availableHours := none
      fixedCommitments := none
      lastAssessment := none
      completedTasksBase := none
      onboardingComplete := none }

/-- JavaScript whitespace for `String.prototype.trim` restricted to the ASCII
characters a subject-name input can contain. -/
def isWs (c : Char) : Bool := c = ' ' || c = '\t' || c = '\n' || c = '\r'

/-- `String.prototype.trim`, written structurally over the character list so
that it evaluates by kernel reduction. -/
def strTrim (s : String) : String :=
  ⟨((s.data.dropWhile isWs).reverse.dropWhile isWs).reverse⟩

/-! ## Onboarding submission (`src/app/onboarding/page.tsx`, `handleSubmit`)

The remote `generatePlan` wrapper (`src/lib/api.ts`) performs
`planStorage.set(plan)` itself after a successful response and throws
before reaching that write on failure; the `remote` parameter carries its
outcome.  The returned `Bool` is whether the submission succeeded
(navigation to the dashboard). -/

/-- `handleSubmit` of the onboarding page.  Validation rejects any subject
with a blank (trimmed-empty) name or empty exam date before touching the
store; otherwise subjects and available hours are persisted, then
`generatePlan` is awaited, and only on its success are the plan stored and
the onboarding flag set. -/
def handleSubmitOnboarding (s : Store) (subjects : List Subject) (availableHours : ℚ)
    (remote : Option WeeklyPlan) : Store × Bool :=
  if subjects.any (fun sub => strTrim sub.name = "" || sub.exam_date = "") then
    (s, false)
  else
    let s1 := hoursSet ({ s with subjects := some subjects }) availableHours
    match remote with
    | none => (s1, false)
    | some plan =>
        (onboardingSetComplete { s1 with weeklyPlan := some plan }, true)

/-! ## Daily check-in (`src/app/checkin/page.tsx`, `handleSubmit`)

The mood entry is appended first; `checkBurnout` is called only when the
re-read history holds at least 3 entries, and its failure is caught by the
inner `try`/`catch` (the check-in itself stands).  The returned `Bool` is
whether the remote burnout-check call was issued. -/

/-- `handleSubmit` of the check-in page. -/
def handleCheckinSubmit (s : Store) (entry : MoodEntry)
    (remote : Option BurnoutAssessment) : Store × Bool :=
  let s1 := moodAdd s entry
  let history := moodGet s1
  if history.length ≥ 3 then
    match remote with
    | some assessment => ({ s1 with lastAssessment := some assessment }, true)
    | none => (s1, true)
  else
    (s1, false)

/-! ## Task toggle (`src/app/dashboard/page.tsx`, `handleTaskToggle`)

The page decides on the `completedTasks` state it loaded from
`completedTasksStorage.get(today)`, which mirrors the store; the toggle is
remove-if-present, add-if-absent. -/

/-- `handleTaskToggle` acting on the store for a given date and task id. -/
def handleTaskToggle (s : Store) (date taskId : String) : Store :=
  if taskId ∈ ctGet s date then ctRemove s date taskId else ctAdd s date taskId

/-! ## Plan reconciliation (`src/app/dashboard/page.tsx`, `handleAdjustPlan`)

The merge of the adjusted day back into the weekly plan:
`plan.days.map(day => day.date === todaysPlan.date ? (replaced day) : day)`. -/

/-- The replacement a matching day receives in `handleAdjustPlan`. -/
def adjustDay (day : StudyPlan) (adjusted : AdjustedPlan) : StudyPlan :=
  { day with
      tasks := adjusted.modified_tasks
      total_hours := adjusted.new_hours
      rest_recommended := decide (adjusted.rest_days_added > 0) }

/-- The reconciliation step of `handleAdjustPlan`: every day whose date
equals the target date is replaced by its adjusted form, all others pass
through. -/
def reconcilePlan (plan : WeeklyPlan) (adjusted : AdjustedPlan)
    (targetDate : String) : WeeklyPlan :=
  { plan with
      days := plan.days.map (fun day =>
        if day.date = targetDate then adjustDay day adjusted else day) }

/-! ## Progress aggregation (`src/app/dashboard/page.tsx`, render body)

The dashboard guards against an absent/empty plan before this code runs
(`!plan || !todaysPlan` early-returns), so `plan.days` is non-empty where
these run; the embedding is total, returning the sentinel `""` bounds on an
empty plan. -/

/-- `plan.days[0].date`, the aggregation window's first day. -/
def firstDayDate (plan : WeeklyPlan) : String :=
  match plan.days with
  | [] => ""
  | d :: _ => d.date

/-- `plan.days[plan.days.length - 1].date`, the window's last day. -/
def lastDayDate (plan : WeeklyPlan) : String :=
  match plan.days.getLast? with
  | none => ""
  | some d => d.date

/-- `totalHoursThisWeek = plan.days.reduce((sum, day) => sum + day.total_hours, 0)`. -/
def totalHoursThisWeek (plan : WeeklyPlan) : ℚ :=
  plan.days.foldl (fun sum day => sum + day.total_hours) 0

/-- `checkinHours`: filter the mood history to entries dated within the
plan's week, then sum their `actual_hours`. -/
def checkinHours (plan : WeeklyPlan) (history : List MoodEntry) : ℚ :=
  (history.filter (fun e =>
      dateLe (firstDayDate plan) e.date && dateLe e.date (lastDayDate plan))).foldl
    (fun sum e => sum + e.actual_hours) 0

/-- A task's identity for the Ledger: `` `${task.subject}-${task.topic}` ``. -/
def taskIdOf (t : DailyTask) : String := t.subject ++ "-" ++ t.topic

/-- `taskCompletionHours`: per day, sum `duration_hours` over the tasks whose
identity lies in that day's completed set. -/
def taskCompletionHours (plan : WeeklyPlan) (s : Store) : ℚ :=
  plan.days.foldl (fun sum day =>
    sum + ((day.tasks.filter (fun t => (ctGet s day.date).contains (taskIdOf t))).foldl
      (fun taskSum t => taskSum + t.duration_hours) 0)) 0

/-- `completedHours = checkinHours + taskCompletionHours`. -/
def completedHours (plan : WeeklyPlan) (history : List MoodEntry) (s : Store) : ℚ :=
  checkinHours plan history + taskCompletionHours plan s

/-- `progressPercent = totalHoursThisWeek > 0 ?
Math.min((completedHours / totalHoursThisWeek) * 100, 100) : 0`. -/
def progressPercent (plan : WeeklyPlan) (history : List MoodEntry) (s : Store) : ℚ :=
  if totalHoursThisWeek plan > 0 then
    min (completedHours plan history s / totalHoursThisWeek plan * 100) 100
  else 0

/-! ## Concrete sample data for witnesses and counterexamples -/

/-- A valid subject (name and exam date non-empty). -/
def subjOS : Subject :=
  { name := "OS", priority := .high, difficulty := .hard, is_weak := true,
    exam_date := "2026-02-01", hours_needed := 10 }

/-- A sample task. -/
def taskPaging : DailyTask :=
  { subject := "OS", topic := "Paging", duration_hours := 2, task_type := .learn,
    priority := .high, notes := "" }

/-- A second sample task. -/
def taskJoins : DailyTask :=
  { subject := "DB", topic := "Joins", duration_hours := 1, task_type := .revise,
    priority := .medium, notes := "" }

/-- A sample study day (Monday). -/
def dayMon : StudyPlan :=
  { date := "2026-01-05", tasks := [taskPaging], total_hours := 2, rest_recommended := false }

/-- A sample study day (Tuesday). -/
def dayTue : StudyPlan :=
  { date := "2026-01-06", tasks := [taskJoins], total_hours := 1, rest_recommended := false }

/-- A sample two-day weekly plan. -/
def planW : WeeklyPlan := { week_number := 1, days := [dayMon, dayTue], burnout_risk := .low }

/-- A sample adjusted plan for one day. -/
def adjA : AdjustedPlan :=
  { original_hours := 2, new_hours := 1, removed_tasks := ["OS-Paging"],
    modified_tasks := [taskJoins], rest_days_added := 1, rationale := "recover" }

/-- A mood entry dated `d`. -/
def mkMood (d : String) : MoodEntry :=
  { date := d, mood := .okay, mood_score := 3, planned_hours := 5, actual_hours := 4,
    focus_level := .medium }

/-- A store whose mood history already holds exactly 7 entries. -/
def moodStore7 : Store :=
  { Store.empty with
      moodHistory := some
        [mkMood "2026-01-01", mkMood "2026-01-02", mkMood "2026-01-03",
         mkMood "2026-01-04", mkMood "2026-01-05", mkMood "2026-01-06",
         mkMood "2026-01-07"] }

/-- A store holding one per-date completed-task record. -/
def ledgerStore : Store :=
  { Store.empty with
      completedTasks := fun k => if k = "2026-01-05" then some ["x", "y"] else none }

/-- A sample burnout assessment. -/
def assessW : BurnoutAssessment :=
  { risk_level := .high, risk_score := 70, signals := ["low mood"],
    recommendations := ["rest", "sleep", "walk"], should_adjust_plan := true }

/-- A sample one-entry mood history dated inside `planW`'s week. -/
def historyW : List MoodEntry := [mkMood "2026-01-05"]

/-- A store whose ledger marks `taskPaging` complete on `planW`'s Monday. -/
def progressStore : Store :=
  { Store.empty with
      completedTasks := fun k => if k = "2026-01-05" then some ["OS-Paging"] else none }

/-! ## Theorems -/

/-- Claim C10: `hoursStorage.get()` returns the default `5` both when no
available-hours record is stored and when the stored value is `0` (the
falsy-coalescing `|| 5`), so a stored value of `0` can never be read back as
`0` — indeed `get` never returns `0` at all. -/
theorem hoursGet_zero_coalesced (s : Store) :
    (s.availableHours = none → hoursGet s = 5) ∧
    (s.availableHours = some 0 → hoursGet s = 5) ∧
    hoursGet (hoursSet s 0) = 5 ∧
    hoursGet s ≠ 0 := by
  refine ⟨fun h => by simp [hoursGet, h], fun h => by simp [hoursGet, h], ?_, ?_⟩
  · simp [hoursGet, hoursSet]
  · unfold hoursGet
    match h : s.availableHours with
    | none => norm_num
    | some v =>
        by_cases hv : v = 0
        · simp [hv]
        · simp [hv]

/-- Witness for `hoursGet_zero_coalesced` at the empty store and a store with
a stored `0`. -/
theorem hoursGet_zero_coalesced_witness :
    Store.empty.availableHours = none ∧
    hoursGet Store.empty = 5 ∧
    (hoursSet Store.empty 0).availableHours = some 0 ∧
    hoursGet (hoursSet Store.empty 0) = 5 ∧
    hoursGet (hoursSet Store.empty 0) ≠ 0 :=
  ⟨rfl, (hoursGet_zero_coalesced Store.empty).1 rfl, rfl,
    (hoursGet_zero_coalesced (hoursSet Store.empty 0)).2.1 rfl,
    (hoursGet_zero_coalesced (hoursSet Store.empty 0)).2.2.2⟩

/-- Claim C3, counterexample: `clearAllData` removes only the fixed keys of
`KEYS`; a per-date completed-task record (compound key
`study_planner_completed_tasks_2026-01-05`) survives the reset and is still
read back afterwards, contradicting "removes ... each per-date
completed-task record". -/
theorem clearAll_leaves_per_date_record :
    ctGet ledgerStore "2026-01-05" = ["x", "y"] ∧
    ctGet (clearAllData ledgerStore) "2026-01-05" = ["x", "y"] ∧
    (["x", "y"] : List String) ≠ [] := by
  exact ⟨rfl, rfl, by decide⟩

/-- Claim C3 (amended): `clearAllData` removes the subjects, weekly-plan,
mood-history, available-hours, fixed-commitments, last-assessment,
base-completed-tasks and onboarding-flag records, and afterwards
`isOnboarded()` returns `false`, for every prior store state; the per-date
completed-task records, however, are left exactly as they were. -/
theorem clearAll_resets_fixed_records (s : Store) :
    (clearAllData s).subjects = none ∧
    (clearAllData s).weeklyPlan = none ∧
    (clearAllData s).moodHistory = none ∧
    (clearAllData s).availableHours = none ∧
    (clearAllData s).fixedCommitments = none ∧
    (clearAllData s).lastAssessment = none ∧
    (clearAllData s).completedTasksBase = none ∧
    (clearAllData s).onboardingComplete = none ∧
    isOnboarded (clearAllData s) = false ∧
    (clearAllData s).completedTasks = s.completedTasks := by
  refine ⟨rfl, rfl, rfl, rfl, rfl, rfl, rfl, rfl, rfl, rfl⟩

/-- Claim C4: the Mood History is a FIFO capped at 7.  Appending to a history
of length 7 evicts exactly the first (oldest) entry and appends the new one
at the end; appending to a shorter history only appends; and any sequence of
appends starting from a history within the cap stays within the cap. -/
theorem mood_history_fifo (s : Store) (e : MoodEntry) :
    ((moodGet s).length = 7 → moodGet (moodAdd s e) = (moodGet s).drop 1 ++ [e]) ∧
    ((moodGet s).length < 7 → moodGet (moodAdd s e) = moodGet s ++ [e]) ∧
    (∀ entries : List MoodEntry, (moodGet s).length ≤ 7 →
      (moodGet (entries.foldl moodAdd s)).length ≤ 7) := by
  have hget : ∀ (s' : Store) (e' : MoodEntry),
      moodGet (moodAdd s' e') =
        if (moodGet s' ++ [e']).length > 7 then (moodGet s' ++ [e']).tail
        else moodGet s' ++ [e'] := by
    intro s' e'
    rfl
  have hlenAdd : ∀ (s' : Store) (e' : MoodEntry), (moodGet s').length ≤ 7 →
      (moodGet (moodAdd s' e')).length ≤ 7 := by
    intro s' e' h
    rw [hget]
    by_cases hc : (moodGet s' ++ [e']).length > 7
    · rw [if_pos hc, List.length_tail, List.length_append]
      simp only [List.length_cons, List.length_nil]
      omega
    · rw [if_neg hc]
      omega
  refine ⟨?_, ?_, ?_⟩
  · intro h7
    rw [hget]
    have hc : (moodGet s ++ [e]).length > 7 := by
      rw [List.length_append, h7]
      simp
    rw [if_pos hc]
    obtain ⟨a, as, hl⟩ : ∃ a as, moodGet s = a :: as := by
      cases hval : moodGet s with
      | nil => rw [hval] at h7; simp at h7
      | cons a as => exact ⟨a, as, rfl⟩
    rw [hl]
    rfl
  · intro hlt
    rw [hget]
    have hc : ¬ (moodGet s ++ [e]).length > 7 := by
      rw [List.length_append]
      simp only [List.length_cons, List.length_nil]
      omega
    rw [if_neg hc]
  · intro entries
    induction entries generalizing s with
    | nil => intro h; simpa using h
    | cons e' es ih =>
        intro h
        simp only [List.foldl_cons]
        exact ih (moodAdd s e') (hlenAdd s e' h)

/-- Witness for `mood_history_fifo`: a full 7-entry history evicts its oldest
entry on append; the empty history only appends; a further append keeps the
length within 7. -/
theorem mood_history_fifo_witness :
    (moodGet moodStore7).length = 7 ∧
    moodGet (moodAdd moodStore7 (mkMood "2026-01-08")) =
      (moodGet moodStore7).drop 1 ++ [mkMood "2026-01-08"] ∧
    (moodGet Store.empty).length < 7 ∧
    moodGet (moodAdd Store.empty (mkMood "2026-01-08")) =
      moodGet Store.empty ++ [mkMood "2026-01-08"] ∧
    (moodGet ([mkMood "2026-01-09"].foldl moodAdd moodStore7)).length ≤ 7 :=
  ⟨rfl,
    (mood_history_fifo moodStore7 (mkMood "2026-01-08")).1 rfl,
    by decide,
    (mood_history_fifo Store.empty (mkMood "2026-01-08")).2.1 (by decide),
    (mood_history_fifo moodStore7 (mkMood "2026-01-09")).2.2 [mkMood "2026-01-09"]
      (by decide)⟩

/-- Claim C6: after a check-in append, the remote burnout-scoring call is
issued iff the resulting mood history holds at least 3 entries; in
particular, for a resulting history shorter than 3 no remote call is made,
whatever the remote outcome would have been. -/
theorem checkin_remote_call_iff (s : Store) (e : MoodEntry)
    (remote : Option BurnoutAssessment) :
    ((handleCheckinSubmit s e remote).snd = true ↔
      3 ≤ (moodGet (moodAdd s e)).length) ∧
    ((moodGet (moodAdd s e)).length < 3 →
      (handleCheckinSubmit s e remote).snd = false) := by
  unfold handleCheckinSubmit
  by_cases h : (moodGet (moodAdd s e)).length ≥ 3
  · rw [if_pos h]
    cases remote with
    | none => exact ⟨⟨fun _ => h, fun _ => rfl⟩, fun hlt => absurd h (by omega)⟩
    | some a => exact ⟨⟨fun _ => h, fun _ => rfl⟩, fun hlt => absurd h (by omega)⟩
  · rw [if_neg h]
    exact ⟨⟨fun hf => absurd hf (by simp), fun hge => absurd hge h⟩, fun _ => rfl⟩

/-- Witness for `checkin_remote_call_iff`: on an empty store the first
check-in (resulting history of length 1) issues no remote call; on a store
with 7 prior entries the call is issued. -/
theorem checkin_remote_call_iff_witness :
    (moodGet (moodAdd Store.empty (mkMood "2026-01-08"))).length < 3 ∧
    (handleCheckinSubmit Store.empty (mkMood "2026-01-08") (some assessW)).snd = false ∧
    (handleCheckinSubmit moodStore7 (mkMood "2026-01-08") (some assessW)).snd = true :=
  ⟨by decide,
    (checkin_remote_call_iff Store.empty (mkMood "2026-01-08") (some assessW)).2
      (by decide),
    (checkin_remote_call_iff moodStore7 (mkMood "2026-01-08") (some assessW)).1.mpr
      (by decide)⟩

/-- Claim C7: when the remote burnout check fails (`remote = none`), the
check-in still persists the new mood entry — the resulting store is exactly
the prior store with the entry appended to its mood history — the assessment
step is skipped, and the previously stored `BurnoutAssessment` (or its
absence) is untouched, for every prior store state. -/
theorem checkin_failure_nonfatal (s : Store) (e : MoodEntry) :
    (handleCheckinSubmit s e none).fst = moodAdd s e ∧
    ((handleCheckinSubmit s e none).fst).lastAssessment = s.lastAssessment ∧
    e ∈ moodGet (handleCheckinSubmit s e none).fst := by
  have hfst : (handleCheckinSubmit s e none).fst = moodAdd s e := by
    unfold handleCheckinSubmit
    by_cases h : (moodGet (moodAdd s e)).length ≥ 3
    · rw [if_pos h]
    · rw [if_neg h]
  refine ⟨hfst, by rw [hfst]; rfl, ?_⟩
  rw [hfst]
  show e ∈ moodGet (moodAdd s e)
  have hget : moodGet (moodAdd s e) =
      if (moodGet s ++ [e]).length > 7 then (moodGet s ++ [e]).tail
      else moodGet s ++ [e] := rfl
  rw [hget]
  by_cases hc : (moodGet s ++ [e]).length > 7
  · rw [if_pos hc]
    obtain ⟨a, as, hl⟩ : ∃ a as, moodGet s = a :: as := by
      cases hval : moodGet s with
      | nil => rw [hval] at hc; simp at hc
      | cons a as => exact ⟨a, as, rfl⟩
    rw [hl]
    simp
  · rw [if_neg hc]
    simp

/-- Claim C8: reconciling an `AdjustedPlan` against a date matching no day of
the plan returns the plan unchanged — a no-op, not an error. -/
theorem reconcile_absent_date_noop (P : WeeklyPlan) (A : AdjustedPlan) (d : String)
    (habs : ∀ day ∈ P.days, day.date ≠ d) :
    reconcilePlan P A d = P := by
  unfold reconcilePlan
  have hmap : P.days.map (fun day => if day.date = d then adjustDay day A else day)
      = P.days := by
    have : P.days.map (fun day => if day.date = d then adjustDay day A else day)
        = P.days.map id := by
      apply List.map_congr_left
      intro day hday
      exact if_neg (habs day hday)
    rw [this, List.map_id]
  rw [hmap]

/-- Witness for `reconcile_absent_date_noop`: a date absent from the sample
plan leaves it untouched. -/
theorem reconcile_absent_date_noop_witness :
    (∀ day ∈ planW.days, day.date ≠ "2026-01-07") ∧
    reconcilePlan planW adjA "2026-01-07" = planW :=
  ⟨by decide, reconcile_absent_date_noop planW adjA "2026-01-07" (by decide)⟩

/-- Claim C2: for a plan containing a day dated `d`, reconciling with an
adjusted plan preserves `week_number`, `burnout_risk`, the number of days and
the date sequence; every day at a non-matching date is passed through
unchanged, and every day at the matching date has its `tasks` replaced by
`modified_tasks`, its `total_hours` by `new_hours`, and `rest_recommended`
set to true iff `rest_days_added > 0`. -/
theorem reconcile_frame (P : WeeklyPlan) (A : AdjustedPlan) (d : String)
    (hmem : ∃ day ∈ P.days, day.date = d) :
    (reconcilePlan P A d).week_number = P.week_number ∧
    (reconcilePlan P A d).burnout_risk = P.burnout_risk ∧
    (reconcilePlan P A d).days.length = P.days.length ∧
    (reconcilePlan P A d).days.map StudyPlan.date = P.days.map StudyPlan.date ∧
    ∀ (i : ℕ) (day : StudyPlan), P.days[i]? = some day →
      (day.date ≠ d → (reconcilePlan P A d).days[i]? = some day) ∧
      (day.date = d → ∃ day',
        (reconcilePlan P A d).days[i]? = some day' ∧
        day'.date = day.date ∧
        day'.tasks = A.modified_tasks ∧
        day'.total_hours = A.new_hours ∧
        (day'.rest_recommended = true ↔ A.rest_days_added > 0)) := by
  refine ⟨rfl, rfl, by simp [reconcilePlan], ?_, ?_⟩
  · show (P.days.map fun day => if day.date = d then adjustDay day A else day).map
        StudyPlan.date = P.days.map StudyPlan.date
    rw [List.map_map]
    apply List.map_congr_left
    intro day _
    by_cases h : day.date = d
    · simp [Function.comp, h, adjustDay]
    · simp [Function.comp, h]
  · intro i day hday
    have hmap : (reconcilePlan P A d).days[i]? =
        (P.days[i]?).map (fun day => if day.date = d then adjustDay day A else day) := by
      show (P.days.map fun day =>
        if day.date = d then adjustDay day A else day)[i]? = _
      rw [List.getElem?_map]
    constructor
    · intro hne
      rw [hmap, hday]
      simp [if_neg hne]
    · intro heq
      refine ⟨adjustDay day A, ?_, rfl, rfl, rfl, by simp [adjustDay]⟩
      rw [hmap, hday]
      simp [if_pos heq]

/-- Witness for `reconcile_frame` on the sample plan: adjusting Monday keeps
the frame and rewrites exactly Monday. -/
theorem reconcile_frame_witness :
    (∃ day ∈ planW.days, day.date = "2026-01-05") ∧
    (reconcilePlan planW adjA "2026-01-05").week_number = planW.week_number ∧
    (reconcilePlan planW adjA "2026-01-05").burnout_risk = planW.burnout_risk ∧
    (reconcilePlan planW adjA "2026-01-05").days.length = planW.days.length ∧
    (reconcilePlan planW adjA "2026-01-05").days.map StudyPlan.date =
      planW.days.map StudyPlan.date ∧
    (∃ day', (reconcilePlan planW adjA "2026-01-05").days[0]? = some day' ∧
      day'.date = dayMon.date ∧
      day'.tasks = adjA.modified_tasks ∧
      day'.total_hours = adjA.new_hours ∧
      (day'.rest_recommended = true ↔ adjA.rest_days_added > 0)) ∧
    (reconcilePlan planW adjA "2026-01-05").days[1]? = some dayTue := by
  have hmem : ∃ day ∈ planW.days, day.date = "2026-01-05" := ⟨dayMon, by decide, rfl⟩
  have h := reconcile_frame planW adjA "2026-01-05" hmem
  refine ⟨hmem, h.1, h.2.1, h.2.2.1, h.2.2.2.1, ?_, ?_⟩
  · exact (h.2.2.2.2 0 dayMon rfl).2 rfl
  · exact (h.2.2.2.2 1 dayTue rfl).1 (by decide)

/-- Reading back the date just written by `completedTasksStorage.set`. -/
theorem ctGet_ctSet (s : Store) (d : String) (ts : List String) :
    ctGet (ctSet s d ts) d = ts := by
  simp [ctGet, ctSet]

/-- Claim C9, counterexample: double-toggling an id that is not the last
element of its day's list does not restore the literal prior value of
`listCompleted(d)` — the id is re-appended at the end, so the list comes
back reordered (`["x", "y"]` becomes `["y", "x"]`). -/
theorem toggle_twice_reorders_list :
    ctGet ledgerStore "2026-01-05" = ["x", "y"] ∧
    ctGet (handleTaskToggle (handleTaskToggle ledgerStore "2026-01-05" "x")
        "2026-01-05" "x") "2026-01-05" = ["y", "x"] ∧
    (["y", "x"] : List String) ≠ ["x", "y"] := by
  refine ⟨rfl, by decide, by decide⟩

/-- Claim C9 (amended): double-toggling restores `listCompleted(d)` as a set
of ids (same membership; and exactly, as a list, when the id was absent),
`add` of a present id is a no-op on the whole store, and `remove` of an
absent id leaves `listCompleted(d)` unchanged. -/
theorem toggle_restores_completed_set (s : Store) (d t : String) :
    (∀ x, x ∈ ctGet (handleTaskToggle (handleTaskToggle s d t) d t) d ↔
      x ∈ ctGet s d) ∧
    (t ∉ ctGet s d →
      ctGet (handleTaskToggle (handleTaskToggle s d t) d t) d = ctGet s d) ∧
    (t ∈ ctGet s d → ctAdd s d t = s) ∧
    (t ∉ ctGet s d → ctGet (ctRemove s d t) d = ctGet s d) := by
  have hfilter_self : ∀ l : List String, t ∉ l →
      l.filter (fun id => id ≠ t) = l := by
    intro l hl
    apply List.filter_eq_self.mpr
    intro a ha
    simp only [ne_eq, decide_eq_true_iff]
    intro heq
    exact hl (heq ▸ ha)
  have habsent : ∀ s' : Store, t ∉ ctGet s' d →
      ctGet (handleTaskToggle (handleTaskToggle s' d t) d t) d = ctGet s' d := by
    intro s' h
    unfold handleTaskToggle
    rw [if_neg h]
    unfold ctAdd
    rw [if_neg h]
    have h2 : t ∈ ctGet (ctSet s' d (ctGet s' d ++ [t])) d := by
      rw [ctGet_ctSet]; simp
    rw [if_pos h2]
    unfold ctRemove
    rw [ctGet_ctSet, ctGet_ctSet, List.filter_append, hfilter_self _ h]
    simp
  refine ⟨?_, habsent s, ?_, ?_⟩
  · intro x
    by_cases h : t ∈ ctGet s d
    · have hrem : ctGet (ctRemove s d t) d =
          (ctGet s d).filter (fun id => id ≠ t) := by
        unfold ctRemove; rw [ctGet_ctSet]
      have hnot : t ∉ ctGet (ctRemove s d t) d := by
        rw [hrem]; simp [List.mem_filter]
      have hstep1 : handleTaskToggle s d t = ctRemove s d t := by
        unfold handleTaskToggle; rw [if_pos h]
      rw [hstep1]
      unfold handleTaskToggle
      rw [if_neg hnot]
      unfold ctAdd
      rw [if_neg hnot, ctGet_ctSet, hrem]
      simp only [List.mem_append, List.mem_filter, List.mem_singleton, ne_eq,
        decide_eq_true_iff]
      constructor
      · rintro (⟨hx, _⟩ | hx)
        · exact hx
        · exact hx ▸ h
      · intro hx
        by_cases hxt : x = t
        · right; exact hxt
        · left; exact ⟨hx, hxt⟩
    · rw [habsent s h]
  · intro h
    unfold ctAdd
    rw [if_pos h]
  · intro h
    unfold ctRemove
    rw [ctGet_ctSet]
    exact hfilter_self _ h

/-- Witness for `toggle_restores_completed_set` on the sample ledger. -/
theorem toggle_restores_completed_set_witness :
    ("x" ∈ ctGet ledgerStore "2026-01-05") ∧
    (∀ x, x ∈ ctGet (handleTaskToggle (handleTaskToggle ledgerStore "2026-01-05" "x")
        "2026-01-05" "x") "2026-01-05" ↔ x ∈ ctGet ledgerStore "2026-01-05") ∧
    ctAdd ledgerStore "2026-01-05" "x" = ledgerStore ∧
    ("z" ∉ ctGet ledgerStore "2026-01-05") ∧
    ctGet (ctRemove ledgerStore "2026-01-05" "z") "2026-01-05" =
      ctGet ledgerStore "2026-01-05" :=
  ⟨by decide,
    (toggle_restores_completed_set ledgerStore "2026-01-05" "x").1,
    (toggle_restores_completed_set ledgerStore "2026-01-05" "x").2.2.1 (by decide),
    by decide,
    (toggle_restores_completed_set ledgerStore "2026-01-05" "z").2.2.2 (by decide)⟩

/-- Claim C1, counterexample: the onboarding submission writes the subjects
and available-hours records *before* awaiting `generatePlan`
(`subjectStorage.set` / `hoursStorage.set` precede the `await`), so when the
remote call fails those two records have already been mutated: starting from
the empty store, after a failed submission the subjects record holds the
submitted list and the available-hours record the submitted value. -/
theorem onboarding_failure_mutates_subjects :
    Store.empty.subjects = none ∧
    Store.empty.availableHours = none ∧
    ((handleSubmitOnboarding Store.empty [subjOS] 6 none).fst).subjects =
      some [subjOS] ∧
    ((handleSubmitOnboarding Store.empty [subjOS] 6 none).fst).availableHours =
      some 6 := by
  refine ⟨rfl, rfl, by decide, by decide⟩

/-- Claim C1 (amended): when `generatePlan` fails during onboarding
submission, the weekly-plan record and the onboarding flag — and the mood
history, last assessment, fixed commitments and every completed-task
record — are left exactly as they were, and the submission reports failure;
the subjects and available-hours records, however, are written before the
remote call, so after the failed operation each either still holds its prior
value (validation rejected the input) or holds the submitted value. -/
theorem onboarding_failure_frame (s : Store) (subjects : List Subject)
    (availableHours : ℚ) :
    ((handleSubmitOnboarding s subjects availableHours none).fst).weeklyPlan =
      s.weeklyPlan ∧
    ((handleSubmitOnboarding s subjects availableHours none).fst).onboardingComplete =
      s.onboardingComplete ∧
    ((handleSubmitOnboarding s subjects availableHours none).fst).moodHistory =
      s.moodHistory ∧
    ((handleSubmitOnboarding s subjects availableHours none).fst).lastAssessment =
      s.lastAssessment ∧
    ((handleSubmitOnboarding s subjects availableHours none).fst).fixedCommitments =
      s.fixedCommitments ∧
    ((handleSubmitOnboarding s subjects availableHours none).fst).completedTasksBase =
      s.completedTasksBase ∧
    ((handleSubmitOnboarding s subjects availableHours none).fst).completedTasks =
      s.completedTasks ∧
    (((handleSubmitOnboarding s subjects availableHours none).fst).subjects =
        s.subjects ∨
      ((handleSubmitOnboarding s subjects availableHours none).fst).subjects =
        some subjects) ∧
    (((handleSubmitOnboarding s subjects availableHours none).fst).availableHours =
        s.availableHours ∨
      ((handleSubmitOnboarding s subjects availableHours none).fst).availableHours =
        some availableHours) ∧
    (handleSubmitOnboarding s subjects availableHours none).snd = false := by
  unfold handleSubmitOnboarding
  by_cases h : subjects.any fun sub => strTrim sub.name = "" || sub.exam_date = ""
  · rw [if_pos h]
    exact ⟨rfl, rfl, rfl, rfl, rfl, rfl, rfl, Or.inl rfl, Or.inl rfl, rfl⟩
  · rw [if_neg h]
    exact ⟨rfl, rfl, rfl, rfl, rfl, rfl, rfl, Or.inr rfl, Or.inr rfl, rfl⟩

/-- A left fold accumulating `+ f x` is the sum of the mapped list. -/
theorem foldl_add_map {α : Type _} (f : α → ℚ) (l : List α) (init : ℚ) :
    l.foldl (fun acc x => acc + f x) init = init + (l.map f).sum := by
  induction l generalizing init with
  | nil => simp
  | cons a as ih =>
      rw [List.foldl_cons, ih, List.map_cons, List.sum_cons]
      ring

/-- `Array.includes` / `List.contains` agrees with decidable membership. -/
theorem contains_eq_decide_mem (l : List String) (a : String) :
    l.contains a = decide (a ∈ l) := by
  by_cases h : a ∈ l <;> simp [h]

/-- Claim C5: `completedHours` is the sum of `actual_hours` over mood entries
dated within the plan's `[firstDay, lastDay]` window plus the sum of
`duration_hours` over tasks whose identity is in their day's completed set;
`progressPercent` is `0` when the total planned hours are `0` and otherwise
`min 100 (100 * completedHours / totalPlannedHours)`; and under the data
model's non-negativity of hour quantities it always lies in `[0, 100]`, even
when `completedHours` exceeds the planned total. -/
theorem progress_aggregation (plan : WeeklyPlan) (history : List MoodEntry)
    (s : Store)
    (hmood : ∀ e ∈ history, 0 ≤ e.actual_hours)
    (htask : ∀ day ∈ plan.days, ∀ t ∈ day.tasks, 0 ≤ t.duration_hours)
    (htotal : ∀ day ∈ plan.days, 0 ≤ day.total_hours) :
    completedHours plan history s =
      ((history.filter fun e =>
          dateLe (firstDayDate plan) e.date && dateLe e.date (lastDayDate plan)).map
        MoodEntry.actual_hours).sum +
      (plan.days.map fun day =>
        ((day.tasks.filter fun t => taskIdOf t ∈ ctGet s day.date).map
          DailyTask.duration_hours).sum).sum ∧
    (totalHoursThisWeek plan = 0 → progressPercent plan history s = 0) ∧
    (totalHoursThisWeek plan ≠ 0 →
      progressPercent plan history s =
        min 100 (100 * completedHours plan history s / totalHoursThisWeek plan)) ∧
    0 ≤ progressPercent plan history s ∧
    progressPercent plan history s ≤ 100 := by
  have hcheckin : checkinHours plan history =
      ((history.filter fun e =>
          dateLe (firstDayDate plan) e.date && dateLe e.date (lastDayDate plan)).map
        MoodEntry.actual_hours).sum := by
    unfold checkinHours
    rw [foldl_add_map MoodEntry.actual_hours, zero_add]
  have hinner : ∀ day : StudyPlan,
      ((day.tasks.filter fun t => (ctGet s day.date).contains (taskIdOf t)).foldl
        (fun taskSum t => taskSum + t.duration_hours) 0) =
      ((day.tasks.filter fun t => taskIdOf t ∈ ctGet s day.date).map
        DailyTask.duration_hours).sum := by
    intro day
    rw [foldl_add_map DailyTask.duration_hours, zero_add]
    have hfil : (day.tasks.filter fun t => (ctGet s day.date).contains (taskIdOf t)) =
        day.tasks.filter fun t => decide (taskIdOf t ∈ ctGet s day.date) := by
      apply List.filter_congr
      intro t _
      exact contains_eq_decide_mem _ _
    rw [hfil]
  have htaskSum : taskCompletionHours plan s =
      (plan.days.map fun day =>
        ((day.tasks.filter fun t => taskIdOf t ∈ ctGet s day.date).map
          DailyTask.duration_hours).sum).sum := by
    unfold taskCompletionHours
    rw [foldl_add_map (fun day : StudyPlan =>
      ((day.tasks.filter fun t => (ctGet s day.date).contains (taskIdOf t)).foldl
        (fun taskSum t => taskSum + t.duration_hours) 0)), zero_add]
    congr 1
    apply List.map_congr_left
    intro day _
    exact hinner day
  have hCH : 0 ≤ completedHours plan history s := by
    unfold completedHours
    have h1 : 0 ≤ checkinHours plan history := by
      rw [hcheckin]
      apply List.sum_nonneg
      intro x hx
      obtain ⟨e, he, rfl⟩ := List.mem_map.mp hx
      exact hmood e (List.mem_filter.mp he).1
    have h2 : 0 ≤ taskCompletionHours plan s := by
      rw [htaskSum]
      apply List.sum_nonneg
      intro x hx
      obtain ⟨day, hday, rfl⟩ := List.mem_map.mp hx
      apply List.sum_nonneg
      intro y hy
      obtain ⟨t, ht, rfl⟩ := List.mem_map.mp hy
      exact htask day hday t (List.mem_filter.mp ht).1
    linarith
  have hTot : 0 ≤ totalHoursThisWeek plan := by
    unfold totalHoursThisWeek
    rw [foldl_add_map StudyPlan.total_hours, zero_add]
    apply List.sum_nonneg
    intro x hx
    obtain ⟨day, hday, rfl⟩ := List.mem_map.mp hx
    exact htotal day hday
  refine ⟨?_, ?_, ?_, ?_, ?_⟩
  · unfold completedHours
    rw [hcheckin, htaskSum]
  · intro h0
    unfold progressPercent
    rw [h0]
    norm_num
  · intro hne
    have hpos : totalHoursThisWeek plan > 0 := lt_of_le_of_ne hTot (Ne.symm hne)
    unfold progressPercent
    rw [if_pos hpos]
    have hdiv : completedHours plan history s / totalHoursThisWeek plan * 100 =
        100 * completedHours plan history s / totalHoursThisWeek plan := by
      ring
    rw [hdiv, min_comm]
  · unfold progressPercent
    by_cases hpos : totalHoursThisWeek plan > 0
    · rw [if_pos hpos]
      exact le_min (mul_nonneg (div_nonneg hCH hpos.le) (by norm_num)) (by norm_num)
    · rw [if_neg hpos]
  · unfold progressPercent
    by_cases hpos : totalHoursThisWeek plan > 0
    · rw [if_pos hpos]
      exact min_le_right _ _
    · rw [if_neg hpos]
      norm_num

/-- Witness for `progress_aggregation` on the sample plan, a one-entry
history inside the week and a ledger completing one task. -/
theorem progress_aggregation_witness :
    (∀ e ∈ historyW, 0 ≤ e.actual_hours) ∧
    (∀ day ∈ planW.days, ∀ t ∈ day.tasks, 0 ≤ t.duration_hours) ∧
    (∀ day ∈ planW.days, 0 ≤ day.total_hours) ∧
    completedHours planW historyW progressStore =
      ((historyW.filter fun e =>
          dateLe (firstDayDate planW) e.date && dateLe e.date (lastDayDate planW)).map
        MoodEntry.actual_hours).sum +
      (planW.days.map fun day =>
        ((day.tasks.filter fun t => taskIdOf t ∈ ctGet progressStore day.date).map
          DailyTask.duration_hours).sum).sum ∧
    0 ≤ progressPercent planW historyW progressStore ∧
    progressPercent planW historyW progressStore ≤ 100 := by
  have h := progress_aggregation planW historyW progressStore
    (by decide) (by decide) (by decide)
  exact ⟨by decide, by decide, by decide, h.1, h.2.2.2.1, h.2.2.2.2⟩
